import Mathlib

/-!
Shallow embedding of the room-based relay server in src/server.py.
Python floats are modelled as rationals, websocket handles as natural
numbers, and Python dicts as insertion-ordered association lists.
The matchmaking queue is a Python set; the embedding keeps its contents
as a list whose order is the (arbitrary) order in which `set.pop` would
return the elements.  That order is unrelated to insertion order, so any
permutation of the set's contents is an admissible queue value.
-/

namespace ServerState

/-- Transport-level connection handle (a websocket object in the source). -/
abbrev Conn := ℕ

/-- Python dict: an insertion-ordered association list with unique keys. -/
abbrev Dict (κ α : Type) : Type := List (κ × α)

/-- Lookup, mirroring `d.get(k)`: first entry whose key equals `k`. -/
def Dict.get {κ α : Type} [DecidableEq κ] : Dict κ α → κ → Option α
  | [], _ => none
  | e :: d, k => if e.1 = k then some e.2 else Dict.get d k

/-- Key-membership test, mirroring `k in d`. -/
def Dict.hasKey {κ α : Type} [DecidableEq κ] : Dict κ α → κ → Bool
  | [], _ => false
  | e :: d, k => e.1 = k || Dict.hasKey d k

/-- Assignment `d[k] = v`: replace in place if the key is present,
append at the end otherwise (Python dicts preserve insertion order). -/
def Dict.set {κ α : Type} [DecidableEq κ] (d : Dict κ α) (k : κ) (v : α) : Dict κ α :=
  if Dict.hasKey d k then d.map (fun e => if e.1 = k then (k, v) else e)
  else d ++ [(k, v)]

/-- Removal `d.pop(k, None)`: drop the entry with key `k` if present. -/
def Dict.pop {κ α : Type} [DecidableEq κ] : Dict κ α → κ → Dict κ α
  | [], _ => []
  | e :: d, k => if e.1 = k then Dict.pop d k else e :: Dict.pop d k

/-- List of keys in insertion order, mirroring `d.keys()`. -/
def Dict.keys {κ α : Type} (d : Dict κ α) : List κ :=
  d.map Prod.fst

/-- The per-input movement cap `MAX_MOVE_PER_INPUT` (default '8' from the environment). -/
def MAX_MOVE_PER_INPUT : ℚ := 8

/-- World bound used in `apply_input`'s position clamp. -/
def WORLD_MAX : ℚ := 5000

/-- The configured snapshot rate `SNAPSHOT_RATE` (default '20' from the environment). -/
def SNAPSHOT_RATE : ℚ := 20

/-- Per-player simulation record (dataclass `PlayerState`, stored in
`room.state['players']` as a plain dict of its fields). -/
structure PlayerState where
  x : ℚ := 100
  y : ℚ := 100
  hp : ℤ := 100
  mana : ℤ := 100
deriving DecidableEq

/-- Connection identity (dataclass `PlayerConn`).  The `joined_at`
wall-clock timestamp is real time, unused by any modelled logic, and
therefore omitted. -/
structure PlayerConn where
  ws : Conn
  player_id : String
  room_id : String
deriving DecidableEq

/-- A room (dataclass `Room`): `state` is the dict
`{'tick': tick, 'players': statePlayers}`, split here into two fields. -/
structure Room where
  room_id : String
  players : Dict String PlayerConn := []
  statePlayers : Dict String PlayerState := []
  tick : ℕ := 0
deriving DecidableEq

/-- An outbound server message (the JSON payloads of the source, with
the real-time `serverTime` field omitted throughout). -/
inductive Msg where
  | queue_joined : Msg
  | welcome (playerId roomId : String) : Msg
  | match_found (roomId : String) (playerIds : List String) : Msg
  | pong : Msg
  | snapshot (roomId : String) (tick : ℕ) (players : Dict String PlayerState) : Msg
  | player_left (playerId roomId : String) : Msg
deriving DecidableEq

/-- One `dx`/`dy` field of an inbound `input` message: absent, present
but not coercible by `float(...)`, or carrying a numeric value. -/
inductive NumField where
  | missing : NumField
  | malformed : NumField
  | num (q : ℚ) : NumField
deriving DecidableEq

/-- Whether `float(...)` raises on this field value. -/
def NumField.isMalformed : NumField → Bool
  | .malformed => true
  | _ => false

/-- Value of `float(msg.get(k, 0.0))` when no exception is raised:
a missing field defaults to 0. -/
def NumField.toVal : NumField → ℚ
  | .num q => q
  | _ => 0

/-- An inbound `input` message, reduced to its two numeric fields. -/
structure InputMsg where
  dx : NumField
  dy : NumField
deriving DecidableEq

/-- Lines 154-158 of `apply_input`: `dx = float(msg.get('dx', 0.0))`
then `dy = float(msg.get('dy', 0.0))` inside one `try`; if either
coercion raises, the `except` branch sets both deltas to 0. -/
def extract_deltas (m : InputMsg) : ℚ × ℚ :=
  if m.dx.isMalformed || m.dy.isMalformed then (0, 0)
  else (m.dx.toVal, m.dy.toVal)

/-- Per-axis delta clamp: `max(-MAX_MOVE_PER_INPUT, min(MAX_MOVE_PER_INPUT, d))`. -/
def clampDelta (d : ℚ) : ℚ :=
  max (-MAX_MOVE_PER_INPUT) (min MAX_MOVE_PER_INPUT d)

/-- World position clamp: `max(0.0, min(5000.0, v))`. -/
def clampWorld (v : ℚ) : ℚ :=
  max 0 (min WORLD_MAX v)

/-- The function `apply_input(room, player_id, msg)`: silently no-op when the player
id is absent from the state mapping; otherwise clamp each delta to the
per-input cap, add it, and clamp the result to the world bound. -/
def apply_input (room : Room) (player_id : String) (m : InputMsg) : Room :=
  match Dict.get room.statePlayers player_id with
  | none => room
  | some p =>
    let d := extract_deltas m
    let dx := clampDelta d.1
    let dy := clampDelta d.2
    let p2 : PlayerState :=
      { p with x := clampWorld (p.x + dx), y := clampWorld (p.y + dy) }
    { room with statePlayers := Dict.set room.statePlayers player_id p2 }

/-- The coroutine `broadcast(room, payload)`: send the payload to every member's
socket; an empty member set produces no sends. -/
def broadcast (room : Room) (m : Msg) : List (Conn × Msg) :=
  room.players.map (fun e => (e.2.ws, m))

/-- The process-wide shared state: the module-level globals `rooms`,
`queue` and `player_index` of the source. -/
structure ServerS where
  rooms : Dict String Room := []
  queue : List Conn := []
  player_index : Dict Conn PlayerConn := []
deriving DecidableEq

/-- The initial server state: all three registries empty. -/
def init : ServerS := {}

/-- The function `create_room_with_pair(a, b)` with the fresh random room id passed
explicitly: registers the room, fills both player slots ('p1' for `a`,
'p2' for `b`) with their spawn states, and records both connections in
`player_index`. -/
def create_room_with_pair (s : ServerS) (rid : String) (a b : Conn) :
    ServerS × Room :=
  let p1 : PlayerConn := { ws := a, player_id := "p1", room_id := rid }
  let p2 : PlayerConn := { ws := b, player_id := "p2", room_id := rid }
  let room : Room :=
    { room_id := rid
      players := Dict.set (Dict.set [] "p1" p1) "p2" p2
      statePlayers :=
        Dict.set (Dict.set [] "p1" { x := 180, y := 300 })
          "p2" { x := 620, y := 300 }
      tick := 0 }
  ({ s with
      rooms := Dict.set s.rooms rid room
      player_index := Dict.set (Dict.set s.player_index a p1) b p2 },
   room)

/-- The coroutine `try_matchmaking()`: return unless the queue holds at least two
connections; otherwise pop two (the list order is the set's arbitrary
pop order), create a room, send each a `welcome`, then broadcast
`match_found`.  Performs exactly one pairing per call. -/
def try_matchmaking (rid : String) (s : ServerS) :
    ServerS × List (Conn × Msg) :=
  match s.queue with
  | a :: b :: rest =>
    let sr := create_room_with_pair { s with queue := rest } rid a b
    (sr.1,
      (a, Msg.welcome "p1" rid) :: (b, Msg.welcome "p2" rid) ::
        broadcast sr.2 (Msg.match_found rid ["p1", "p2"]))
  | _ => (s, [])

/-- The connection phase of `ws_handler`: `queue.add(ws)` (a no-op when
already queued; the newcomer's position in the pop order is arbitrary,
fixed here at the head) followed by `await try_matchmaking()`. -/
def arrival (s : ServerS) (c : Conn) (rid : String) : ServerS :=
  let q := if c ∈ s.queue then s.queue else c :: s.queue
  (try_matchmaking rid { s with queue := q }).1

/-- The `input` branch of `ws_handler`'s receive loop: look the socket
up in `player_index`, then its room in `rooms`, and apply the input;
either lookup failing is a silent no-op. -/
def handle_input (s : ServerS) (c : Conn) (m : InputMsg) : ServerS :=
  match Dict.get s.player_index c with
  | none => s
  | some conn =>
    match Dict.get s.rooms conn.room_id with
    | none => s
    | some room =>
      { s with
          rooms := Dict.set s.rooms conn.room_id
            (apply_input room conn.player_id m) }

/-- The coroutine `remove_client(ws)`: drop the socket from the queue and from
`player_index`; if it was a room member, remove its entries from both
room mappings, broadcast `player_left` to whoever remains, and drop the
room from the registry when it became empty. -/
def remove_client (s : ServerS) (c : Conn) : ServerS × List (Conn × Msg) :=
  let q := s.queue.filter (fun x => decide (x ≠ c))
  match Dict.get s.player_index c with
  | none => ({ s with queue := q }, [])
  | some conn =>
    let s1 := { s with queue := q, player_index := Dict.pop s.player_index c }
    match Dict.get s.rooms conn.room_id with
    | none => (s1, [])
    | some room =>
      let room2 : Room :=
        { room with
            players := Dict.pop room.players conn.player_id
            statePlayers := Dict.pop room.statePlayers conn.player_id }
      let outs := broadcast room2 (Msg.player_left conn.player_id room.room_id)
      if room2.players = [] then
        ({ s1 with rooms := Dict.pop s1.rooms room.room_id }, outs)
      else
        ({ s1 with rooms := Dict.set s1.rooms room.room_id room2 }, outs)

/-- One pass over a single room inside `snapshot_loop`'s `while True`
body: bump the tick, then broadcast the full state. -/
def snapshot_room (r : Room) : Room × List (Conn × Msg) :=
  let r2 : Room := { r with tick := r.tick + 1 }
  (r2, broadcast r2 (Msg.snapshot r2.room_id r2.tick r2.statePlayers))

/-- One full iteration of `snapshot_loop`: every registered room is
ticked and broadcast (iteration over `list(rooms.values())`). -/
def snapshot_step (s : ServerS) : ServerS × List (Conn × Msg) :=
  ({ s with rooms := s.rooms.map (fun e => (e.1, (snapshot_room e.2).1)) },
   (s.rooms.map (fun e => (snapshot_room e.2).2)).flatten)

/-- Repeated iterations of `snapshot_loop` (state only). -/
def run_snapshots (s : ServerS) : ℕ → ServerS
  | 0 => s
  | n + 1 => (snapshot_step (run_snapshots s n)).1

/-- Line 204 of `snapshot_loop`: `tick_dt = 1.0 / max(1.0, SNAPSHOT_RATE)`. -/
def tick_dt (rate : ℚ) : ℚ := 1 / max 1 rate

/-- A sequence of `apply_input` calls against one room. -/
def run_inputs (room : Room) : List (String × InputMsg) → Room
  | [] => room
  | e :: l => run_inputs (apply_input room e.1 e.2) l

/-! Basic facts about the dict embedding. -/

theorem Dict.get_cons {κ α : Type} [DecidableEq κ] (e : κ × α) (d : Dict κ α) (k : κ) :
    Dict.get (e :: d) k = if e.1 = k then some e.2 else Dict.get d k := rfl

theorem Dict.get_mem {κ α : Type} [DecidableEq κ] {d : Dict κ α} {k : κ} {v : α}
    (h : Dict.get d k = some v) : (k, v) ∈ d := by
  induction d with
  | nil => simp [Dict.get] at h
  | cons e d ih =>
    rw [Dict.get_cons] at h
    by_cases he : e.1 = k
    · rw [if_pos he] at h
      obtain ⟨k', v'⟩ := e
      dsimp only at he
      subst he
      cases Option.some.inj h
      exact List.mem_cons_self _ _
    · rw [if_neg he] at h
      exact List.mem_cons_of_mem _ (ih h)

theorem Dict.hasKey_of_get {κ α : Type} [DecidableEq κ] {d : Dict κ α} {k : κ} {v : α}
    (h : Dict.get d k = some v) : Dict.hasKey d k = true := by
  induction d with
  | nil => simp [Dict.get] at h
  | cons e d ih =>
    rw [Dict.get_cons] at h
    rw [Dict.hasKey]
    by_cases he : e.1 = k
    · simp [he]
    · rw [if_neg he] at h
      simp [ih h]

theorem Dict.hasKey_iff_mem_keys {κ α : Type} [DecidableEq κ] {d : Dict κ α} {k : κ} :
    Dict.hasKey d k = true ↔ k ∈ Dict.keys d := by
  induction d with
  | nil => simp [Dict.hasKey, Dict.keys]
  | cons e d ih =>
    rw [Dict.hasKey]
    simp only [Dict.keys, List.map_cons, List.mem_cons, Bool.or_eq_true, decide_eq_true_eq]
    simp only [Dict.keys] at ih
    rw [ih]
    constructor
    · rintro (h | h)
      · exact Or.inl h.symm
      · exact Or.inr h
    · rintro (h | h)
      · exact Or.inl h.symm
      · exact Or.inr h

theorem Dict.get_set_self {κ α : Type} [DecidableEq κ] (d : Dict κ α) (k : κ) (v : α) :
    Dict.get (Dict.set d k v) k = some v := by
  rw [Dict.set]
  by_cases hk : Dict.hasKey d k
  · rw [if_pos hk]
    induction d with
    | nil => simp [Dict.hasKey] at hk
    | cons e d ih =>
      rw [Dict.hasKey] at hk
      by_cases he : e.1 = k
      · simp [Dict.get_cons, he]
      · have hk' : Dict.hasKey d k = true := by simpa [he] using hk
        simp only [List.map_cons, if_neg he, Dict.get_cons]
        exact ih hk'
  · rw [if_neg hk]
    induction d with
    | nil => simp [Dict.get_cons, Dict.get]
    | cons e d ih =>
      rw [Dict.hasKey] at hk
      by_cases he : e.1 = k
      · simp [he] at hk
      · have hk' : ¬ Dict.hasKey d k = true := by
          intro h'
          exact hk (by simp [h'])
        simp only [List.cons_append, Dict.get_cons, if_neg he]
        exact ih hk'

theorem Dict.get_set_ne {κ α : Type} [DecidableEq κ] {d : Dict κ α} {k k' : κ} (v : α)
    (h : k' ≠ k) : Dict.get (Dict.set d k v) k' = Dict.get d k' := by
  rw [Dict.set]
  by_cases hk : Dict.hasKey d k
  · rw [if_pos hk]
    clear hk
    induction d with
    | nil => rfl
    | cons e d ih =>
      simp only [List.map_cons, Dict.get_cons]
      by_cases he : e.1 = k
      · have hek' : ¬ e.1 = k' := fun hek => h (he.symm.trans hek).symm
        have hkk' : ¬ ((k, v) : κ × α).1 = k' := fun hh => h hh.symm
        rw [if_pos he, if_neg hkk', if_neg hek']
        exact ih
      · rw [if_neg he]
        by_cases he' : e.1 = k'
        · rw [if_pos he', if_pos he']
        · rw [if_neg he', if_neg he']
          exact ih
  · rw [if_neg hk]
    clear hk
    induction d with
    | nil =>
      have hkk' : ¬ ((k, v) : κ × α).1 = k' := fun hh => h hh.symm
      simp [Dict.get_cons, Dict.get, if_neg hkk']
    | cons e d ih =>
      simp only [List.cons_append, Dict.get_cons]
      by_cases he' : e.1 = k'
      · rw [if_pos he', if_pos he']
      · rw [if_neg he', if_neg he']
        exact ih

theorem Dict.keys_set_of_hasKey {κ α : Type} [DecidableEq κ] {d : Dict κ α} {k : κ} (v : α)
    (h : Dict.hasKey d k = true) : Dict.keys (Dict.set d k v) = Dict.keys d := by
  rw [Dict.set, if_pos h]
  clear h
  induction d with
  | nil => rfl
  | cons e d ih =>
    simp only [List.map_cons, Dict.keys]
    by_cases he : e.1 = k
    · rw [if_pos he]
      simp only [Dict.keys] at ih
      simp [ih, he]
    · rw [if_neg he]
      simp only [Dict.keys] at ih
      simp [ih]

theorem Dict.keys_set_of_not_hasKey {κ α : Type} [DecidableEq κ] {d : Dict κ α} {k : κ} (v : α)
    (h : Dict.hasKey d k = false) : Dict.keys (Dict.set d k v) = Dict.keys d ++ [k] := by
  rw [Dict.set, if_neg (by simp [h])]
  simp [Dict.keys]

theorem Dict.keys_pop {κ α : Type} [DecidableEq κ] (d : Dict κ α) (k : κ) :
    Dict.keys (Dict.pop d k) = (Dict.keys d).filter (fun x => decide (x ≠ k)) := by
  induction d with
  | nil => rfl
  | cons e d ih =>
    rw [Dict.pop]
    simp only [Dict.keys] at ih ⊢
    by_cases he : e.1 = k
    · rw [if_pos he, ih]
      simp [List.filter_cons, he]
    · rw [if_neg he]
      simp [List.filter_cons, he, ih]

theorem Dict.mem_set {κ α : Type} [DecidableEq κ] {d : Dict κ α} {k : κ} {v : α}
    {e : κ × α} (h : e ∈ Dict.set d k v) : e = (k, v) ∨ e ∈ d := by
  rw [Dict.set] at h
  by_cases hk : Dict.hasKey d k
  · rw [if_pos hk] at h
    obtain ⟨e', he', heq⟩ := List.mem_map.mp h
    by_cases h1 : e'.1 = k
    · rw [if_pos h1] at heq
      exact Or.inl heq.symm
    · rw [if_neg h1] at heq
      exact Or.inr (heq ▸ he')
  · rw [if_neg hk] at h
    rcases List.mem_append.mp h with h | h
    · exact Or.inr h
    · exact Or.inl (List.mem_singleton.mp h)

theorem Dict.mem_pop {κ α : Type} [DecidableEq κ] {d : Dict κ α} {k : κ}
    {e : κ × α} (h : e ∈ Dict.pop d k) : e ∈ d := by
  induction d with
  | nil => simp [Dict.pop] at h
  | cons e' d ih =>
    rw [Dict.pop] at h
    by_cases he : e'.1 = k
    · rw [if_pos he] at h
      exact List.mem_cons_of_mem _ (ih h)
    · rw [if_neg he] at h
      rcases List.mem_cons.mp h with h | h
      · exact h ▸ List.mem_cons_self _ _
      · exact List.mem_cons_of_mem _ (ih h)

theorem Dict.get_pop_self {κ α : Type} [DecidableEq κ] (d : Dict κ α) (k : κ) :
    Dict.get (Dict.pop d k) k = none := by
  induction d with
  | nil => rfl
  | cons e d ih =>
    rw [Dict.pop]
    by_cases he : e.1 = k
    · rw [if_pos he]
      exact ih
    · rw [if_neg he, Dict.get, if_neg he]
      exact ih

theorem Dict.get_pop_ne {κ α : Type} [DecidableEq κ] {d : Dict κ α} {k k' : κ}
    (h : k' ≠ k) : Dict.get (Dict.pop d k) k' = Dict.get d k' := by
  induction d with
  | nil => rfl
  | cons e d ih =>
    rw [Dict.pop]
    by_cases he : e.1 = k
    · rw [if_pos he, Dict.get, if_neg (he ▸ fun h' => h h'.symm)]
      exact ih
    · rw [if_neg he, Dict.get, Dict.get]
      by_cases he' : e.1 = k'
      · rw [if_pos he', if_pos he']
      · rw [if_neg he', if_neg he']
        exact ih

theorem Dict.pop_eq_of_not_mem {κ α : Type} [DecidableEq κ] {d : Dict κ α} {k : κ}
    (h : k ∉ Dict.keys d) : Dict.pop d k = d := by
  induction d with
  | nil => rfl
  | cons e d ih =>
    simp only [Dict.keys, List.map_cons, List.mem_cons, not_or] at h
    rw [Dict.pop, if_neg (fun h' => h.1 h'.symm), ih h.2]

theorem Dict.length_pop_of_mem {κ α : Type} [DecidableEq κ] {d : Dict κ α} {k : κ}
    (hnd : (Dict.keys d).Nodup) (h : k ∈ Dict.keys d) :
    (Dict.pop d k).length + 1 = d.length := by
  induction d with
  | nil => simp [Dict.keys] at h
  | cons e d ih =>
    simp only [Dict.keys, List.map_cons, List.nodup_cons] at hnd
    rw [Dict.pop]
    by_cases he : e.1 = k
    · rw [if_pos he]
      have hnotin : k ∉ Dict.keys d := he ▸ hnd.1
      simp [Dict.pop_eq_of_not_mem hnotin]
    · rw [if_neg he]
      simp only [Dict.keys, List.map_cons, List.mem_cons] at h
      rcases h with h | h
      · exact absurd h.symm he
      · simp only [List.length_cons]
        rw [← ih hnd.2 h]

theorem Dict.pop_of_keys_eq_singleton {κ α : Type} [DecidableEq κ] {d : Dict κ α} {k : κ}
    (h : Dict.keys d = [k]) : Dict.pop d k = [] := by
  cases d with
  | nil => rfl
  | cons e d =>
    simp only [Dict.keys, List.map_cons, List.cons.injEq] at h
    cases d with
    | nil => simp [Dict.pop, h.1]
    | cons e' d => simp [Dict.keys] at h

theorem Dict.get_map_val {κ α β : Type} [DecidableEq κ] (d : Dict κ α) (f : α → β) (k : κ) :
    Dict.get (d.map (fun e => (e.1, f e.2))) k = (Dict.get d k).map f := by
  induction d with
  | nil => rfl
  | cons e d ih =>
    simp only [List.map_cons, Dict.get_cons]
    by_cases he : e.1 = k
    · rw [if_pos he, if_pos he]
      rfl
    · rw [if_neg he, if_neg he]
      exact ih

theorem Dict.length_set_of_not_hasKey {κ α : Type} [DecidableEq κ] {d : Dict κ α} {k : κ}
    (v : α) (h : Dict.hasKey d k = false) :
    (Dict.set d k v).length = d.length + 1 := by
  rw [Dict.set, if_neg (by simp [h])]
  simp

theorem Dict.mem_pop_of_ne {κ α : Type} [DecidableEq κ] {d : Dict κ α} {k : κ}
    {e : κ × α} (hm : e ∈ d) (hne : e.1 ≠ k) : e ∈ Dict.pop d k := by
  induction d with
  | nil => simp at hm
  | cons e' d ih =>
    rw [Dict.pop]
    rcases List.mem_cons.mp hm with h | h
    · subst h
      rw [if_neg hne]
      exact List.mem_cons_self _ _
    · by_cases he : e'.1 = k
      · rw [if_pos he]
        exact ih h
      · rw [if_neg he]
        exact List.mem_cons_of_mem _ (ih h)

/-! Arithmetic facts about the two clamps. -/

theorem clampDelta_abs_le (d : ℚ) : |clampDelta d| ≤ MAX_MOVE_PER_INPUT := by
  rw [abs_le, clampDelta]
  refine ⟨le_max_left _ _, max_le ?_ (min_le_left _ _)⟩
  norm_num [MAX_MOVE_PER_INPUT]

theorem clampWorld_nonneg (v : ℚ) : 0 ≤ clampWorld v :=
  le_max_left _ _

theorem clampWorld_le (v : ℚ) : clampWorld v ≤ WORLD_MAX :=
  max_le (by norm_num [WORLD_MAX]) (min_le_left _ _)

theorem clampWorld_eq_of_mem {v : ℚ} (h0 : 0 ≤ v) (h1 : v ≤ WORLD_MAX) :
    clampWorld v = v := by
  rw [clampWorld, min_eq_right h1, max_eq_right h0]

theorem clampWorld_move_le {x d : ℚ} (h0 : 0 ≤ x) (h1 : x ≤ WORLD_MAX)
    (hd : |d| ≤ MAX_MOVE_PER_INPUT) : |clampWorld (x + d) - x| ≤ MAX_MOVE_PER_INPUT := by
  rw [abs_le] at hd ⊢
  rw [clampWorld]
  have hW : (0 : ℚ) ≤ WORLD_MAX := by norm_num [WORLD_MAX]
  rcases le_total (x + d) WORLD_MAX with hle | hge
  · rw [min_eq_right hle]
    rcases le_total (x + d) 0 with hle0 | hge0
    · rw [max_eq_left hle0]
      constructor <;> linarith [hd.1, hd.2]
    · rw [max_eq_right hge0]
      constructor <;> linarith [hd.1, hd.2]
  · rw [min_eq_left hge, max_eq_right hW]
    constructor <;> linarith [hd.1, hd.2]

/-! Unfolding lemmas for `apply_input`. -/

theorem apply_input_eq_of_none {room : Room} {pid : String} (m : InputMsg)
    (h : Dict.get room.statePlayers pid = none) : apply_input room pid m = room := by
  rw [apply_input, h]

theorem apply_input_eq_of_get {room : Room} {pid : String} {p : PlayerState} (m : InputMsg)
    (h : Dict.get room.statePlayers pid = some p) :
    apply_input room pid m =
      { room with
          statePlayers :=
            Dict.set room.statePlayers pid
              { p with
                  x := clampWorld (p.x + clampDelta (extract_deltas m).1)
                  y := clampWorld (p.y + clampDelta (extract_deltas m).2) } } := by
  rw [apply_input, h]

/-! Invariants and the reachability relation over the shared state. -/

/-- All player positions stored in the room lie inside the world bounds. -/
abbrev RoomInWorld (room : Room) : Prop :=
  ∀ e ∈ room.statePlayers, 0 ≤ e.2.x ∧ e.2.x ≤ WORLD_MAX ∧ 0 ≤ e.2.y ∧ e.2.y ≤ WORLD_MAX

/-- The room's player-identity mapping and its player-state mapping have
the same keys (in the same insertion order). -/
abbrev KeysMatch (room : Room) : Prop :=
  Dict.keys room.players = Dict.keys room.statePlayers

/-- Every registered room satisfies `KeysMatch`. -/
abbrev RoomsKeysMatch (s : ServerS) : Prop :=
  ∀ e ∈ s.rooms, KeysMatch e.2

/-- One state-mutating operation of the server: a connection arriving
(which may trigger a match), an `input` message, or a disconnect. -/
inductive Step : ServerS → ServerS → Prop where
  | arrive (s : ServerS) (c : Conn) (rid : String) : Step s (arrival s c rid)
  | input (s : ServerS) (c : Conn) (m : InputMsg) : Step s (handle_input s c m)
  | leave (s : ServerS) (c : Conn) : Step s (remove_client s c).1

/-- Server states reachable from the empty initial state. -/
def Reachable (s : ServerS) : Prop :=
  Relation.ReflTransGen Step init s

/-- A sequence of per-arrival rounds (`queue.add` then `try_matchmaking`),
each arrival carrying the random room id that would be minted if its
round pairs. -/
def run_arrivals (s : ServerS) : List (Conn × String) → ServerS
  | [] => s
  | e :: l => run_arrivals (arrival s e.1 e.2) l

/-! Preservation of the invariants by the operations. -/

theorem apply_input_in_world (room : Room) (pid : String) (m : InputMsg)
    (h : RoomInWorld room) : RoomInWorld (apply_input room pid m) := by
  cases hg : Dict.get room.statePlayers pid with
  | none =>
    rw [apply_input_eq_of_none m hg]
    exact h
  | some p =>
    rw [apply_input_eq_of_get m hg]
    intro e he
    rcases Dict.mem_set he with rfl | he'
    · exact ⟨clampWorld_nonneg _, clampWorld_le _, clampWorld_nonneg _, clampWorld_le _⟩
    · exact h e he'

theorem run_inputs_in_world (l : List (String × InputMsg)) (room : Room)
    (h : RoomInWorld room) : RoomInWorld (run_inputs room l) := by
  induction l generalizing room with
  | nil => exact h
  | cons e l ih => exact ih _ (apply_input_in_world room e.1 e.2 h)

theorem keysMatch_create (s : ServerS) (rid : String) (a b : Conn) :
    KeysMatch (create_room_with_pair s rid a b).2 := rfl

theorem keysMatch_apply_input (room : Room) (pid : String) (m : InputMsg)
    (h : KeysMatch room) : KeysMatch (apply_input room pid m) := by
  cases hg : Dict.get room.statePlayers pid with
  | none =>
    rw [apply_input_eq_of_none m hg]
    exact h
  | some p =>
    rw [apply_input_eq_of_get m hg]
    unfold KeysMatch at h ⊢
    dsimp only
    rw [Dict.keys_set_of_hasKey _ (Dict.hasKey_of_get hg)]
    exact h

theorem keysMatch_pop (room : Room) (pid : String) (h : KeysMatch room) :
    KeysMatch
      { room with
          players := Dict.pop room.players pid
          statePlayers := Dict.pop room.statePlayers pid } := by
  unfold KeysMatch at h ⊢
  dsimp only
  rw [Dict.keys_pop, Dict.keys_pop, h]

theorem roomsKeysMatch_try (rid : String) (s : ServerS) (h : RoomsKeysMatch s) :
    RoomsKeysMatch (try_matchmaking rid s).1 := by
  obtain ⟨R, q, pi⟩ := s
  rcases q with _ | ⟨a, _ | ⟨b, rest⟩⟩
  · exact h
  · exact h
  · intro e he
    rcases Dict.mem_set he with rfl | he'
    · exact rfl
    · exact h e he'

theorem roomsKeysMatch_arrival (s : ServerS) (c : Conn) (rid : String)
    (h : RoomsKeysMatch s) : RoomsKeysMatch (arrival s c rid) :=
  roomsKeysMatch_try rid _ h

theorem roomsKeysMatch_handle_input (s : ServerS) (c : Conn) (m : InputMsg)
    (h : RoomsKeysMatch s) : RoomsKeysMatch (handle_input s c m) := by
  unfold handle_input
  cases hpi : Dict.get s.player_index c with
  | none => exact h
  | some conn =>
    dsimp only
    cases hr : Dict.get s.rooms conn.room_id with
    | none => exact h
    | some room =>
      intro e he
      rcases Dict.mem_set he with rfl | he'
      · exact keysMatch_apply_input _ _ _ (h _ (Dict.get_mem hr))
      · exact h e he'

theorem roomsKeysMatch_remove (s : ServerS) (c : Conn)
    (h : RoomsKeysMatch s) : RoomsKeysMatch (remove_client s c).1 := by
  unfold remove_client
  cases hpi : Dict.get s.player_index c with
  | none => exact h
  | some conn =>
    dsimp only
    cases hr : Dict.get s.rooms conn.room_id with
    | none => exact h
    | some room =>
      dsimp only
      by_cases hz : Dict.pop room.players conn.player_id = []
      · rw [if_pos hz]
        intro e he
        exact h e (Dict.mem_pop he)
      · rw [if_neg hz]
        intro e he
        rcases Dict.mem_set he with rfl | he'
        · exact keysMatch_pop room conn.player_id (h _ (Dict.get_mem hr))
        · exact h e he'

theorem reachable_roomsKeysMatch (s : ServerS) (h : Reachable s) :
    RoomsKeysMatch s := by
  induction h with
  | refl => intro e he; simp [init] at he
  | tail hab hbc ih =>
    cases hbc with
    | arrive c rid => exact roomsKeysMatch_arrival _ c rid ih
    | input c m => exact roomsKeysMatch_handle_input _ c m ih
    | leave c => exact roomsKeysMatch_remove _ c ih

/-! Behaviour of the snapshot broadcaster across iterations. -/

theorem get_run_snapshots (s : ServerS) (rid : String) (n : ℕ) :
    Dict.get (run_snapshots s n).rooms rid =
      (Dict.get s.rooms rid).map (fun r => { r with tick := r.tick + n }) := by
  induction n with
  | zero =>
    show Dict.get s.rooms rid =
      (Dict.get s.rooms rid).map (fun r => { r with tick := r.tick + 0 })
    cases Dict.get s.rooms rid <;> rfl
  | succ n ih =>
    have hget : Dict.get (run_snapshots s (n + 1)).rooms rid =
        Option.map (fun r => (snapshot_room r).1)
          (Dict.get (run_snapshots s n).rooms rid) :=
      Dict.get_map_val (run_snapshots s n).rooms (fun r => (snapshot_room r).1) rid
    rw [hget, ih]
    cases Dict.get s.rooms rid <;> rfl

theorem snapshot_room_msg (r : Room) (out : Conn × Msg)
    (h : out ∈ (snapshot_room r).2) :
    out.2 = Msg.snapshot r.room_id (r.tick + 1) r.statePlayers := by
  obtain ⟨e, -, rfl⟩ := List.mem_map.mp h
  rfl

/-! Behaviour of per-arrival matchmaking rounds. -/

theorem create_room_queue (s : ServerS) (rid : String) (a b : Conn) :
    (create_room_with_pair s rid a b).1.queue = s.queue := rfl

theorem create_room_rooms (s : ServerS) (rid : String) (a b : Conn) :
    (create_room_with_pair s rid a b).1.rooms =
      Dict.set s.rooms rid (create_room_with_pair s rid a b).2 := rfl

theorem arrival_queue_nil (R : Dict String Room) (pi : Dict Conn PlayerConn)
    (c : Conn) (rid : String) :
    arrival ⟨R, [], pi⟩ c rid = ⟨R, [c], pi⟩ := rfl

theorem arrival_queue_one {R : Dict String Room} {pi : Dict Conn PlayerConn} {d c : Conn}
    (rid : String) (h : c ≠ d) :
    arrival ⟨R, [d], pi⟩ c rid = (create_room_with_pair ⟨R, [], pi⟩ rid c d).1 := by
  unfold arrival
  rw [if_neg (by simp [h])]
  rfl

theorem run_arrivals_counts (l : List (Conn × String)) :
    ∀ s : ServerS, (l.map Prod.fst).Nodup → (l.map Prod.snd).Nodup →
    s.queue.length ≤ 1 → (∀ e ∈ l, e.1 ∉ s.queue) →
    (∀ e ∈ l, e.2 ∉ Dict.keys s.rooms) →
    (run_arrivals s l).queue.length = (s.queue.length + l.length) % 2 ∧
    (run_arrivals s l).rooms.length = s.rooms.length + (s.queue.length + l.length) / 2 := by
  induction l with
  | nil =>
    intro s _ _ hq _ _
    simp only [run_arrivals, List.length_nil]
    omega
  | cons e l ih =>
    intro s hc hr hq hfc hfr
    simp only [List.map_cons, List.nodup_cons] at hc hr
    have hce : e.1 ∉ s.queue := hfc e (List.mem_cons_self _ _)
    have hre : e.2 ∉ Dict.keys s.rooms := hfr e (List.mem_cons_self _ _)
    obtain ⟨R, q, pi⟩ := s
    rcases q with _ | ⟨d, _ | ⟨d2, q2⟩⟩
    · -- empty queue: the arrival only enqueues
      rw [run_arrivals, arrival_queue_nil]
      have h2 := ih ⟨R, [e.1], pi⟩ hc.2 hr.2 (by simp)
        (fun e' he' => by
          simp only [List.mem_singleton]
          intro hEq
          exact hc.1 (hEq ▸ List.mem_map_of_mem Prod.fst he'))
        (fun e' he' => hfr e' (List.mem_cons_of_mem _ he'))
      obtain ⟨h2q, h2r⟩ := h2
      constructor
      · rw [h2q]
        simp only [List.length_singleton, List.length_nil, List.length_cons]
        omega
      · rw [h2r]
        simp only [List.length_singleton, List.length_nil, List.length_cons]
        omega
    · -- one queued connection: the arrival pairs with it
      have hcd : e.1 ≠ d := fun hEq => hce (by simp [hEq])
      rw [run_arrivals, arrival_queue_one e.2 hcd]
      have hkey : Dict.hasKey R e.2 = false :=
        Bool.eq_false_iff.mpr (fun hk => hre (Dict.hasKey_iff_mem_keys.mp hk))
      have h2 := ih (create_room_with_pair ⟨R, [], pi⟩ e.2 e.1 d).1 hc.2 hr.2
        (by rw [create_room_queue]; simp)
        (fun e' he' => by rw [create_room_queue]; simp)
        (fun e' he' => by
          rw [create_room_rooms]
          have : Dict.keys (Dict.set R e.2 (create_room_with_pair ⟨R, [], pi⟩ e.2 e.1 d).2)
              = Dict.keys R ++ [e.2] := Dict.keys_set_of_not_hasKey _ hkey
          rw [this]
          simp only [List.mem_append, List.mem_singleton, not_or]
          refine ⟨hfr e' (List.mem_cons_of_mem _ he'), fun hEq => ?_⟩
          exact hr.1 (hEq ▸ List.mem_map_of_mem Prod.snd he'))
      obtain ⟨h2q, h2r⟩ := h2
      have hlen : (create_room_with_pair ⟨R, [], pi⟩ e.2 e.1 d).1.rooms.length
          = R.length + 1 := Dict.length_set_of_not_hasKey _ hkey
      constructor
      · rw [h2q, create_room_queue]
        simp only [List.length_nil, List.length_cons]
        omega
      · rw [h2r, hlen, create_room_queue]
        simp only [List.length_nil, List.length_cons]
        omega
    · exfalso
      simp at hq

/-! Concrete states used by the examples. -/

/-- A concrete one-player room with "p1" standing at (180, 300). -/
def roomEx : Room :=
  { room_id := "room-a1b2c3", statePlayers := [("p1", { x := 180, y := 300 })] }

/-- The server after connection 0 and then connection 1 arrive at the
empty server; in the pop order the later arrival came first. -/
def sPair : ServerS := run_arrivals init [(0, "rA"), (1, "rB")]

/-- The room that `sPair`'s matchmaking round created. -/
def roomPair : Room :=
  { room_id := "rB"
    players := [("p1", { ws := 1, player_id := "p1", room_id := "rB" }),
                ("p2", { ws := 0, player_id := "p2", room_id := "rB" })]
    statePlayers := [("p1", { x := 180, y := 300 }), ("p2", { x := 620, y := 300 })]
    tick := 0 }

/-- A server whose matchmaking queue holds four connections. -/
def s4 : ServerS := { queue := [0, 1, 2, 3] }

/-! The claims. -/

/-- C1: for every room, every player id present in the room's state
mapping, and every input message, if the player's position is within the
world bounds beforehand then `apply_input` changes each position
coordinate by at most `MAX_MOVE_PER_INPUT` (default 8) in absolute
value, regardless of the sign or magnitude of dx/dy; in particular a
player at (180, 300) receiving dx = 100 with cap 8 ends at x = 188. -/
theorem C1_per_input_movement_cap :
    (∀ (room : Room) (pid : String) (m : InputMsg) (p q : PlayerState),
      Dict.get room.statePlayers pid = some p →
      0 ≤ p.x → p.x ≤ WORLD_MAX → 0 ≤ p.y → p.y ≤ WORLD_MAX →
      Dict.get (apply_input room pid m).statePlayers pid = some q →
      |q.x - p.x| ≤ MAX_MOVE_PER_INPUT ∧ |q.y - p.y| ≤ MAX_MOVE_PER_INPUT) ∧
    MAX_MOVE_PER_INPUT = 8 ∧
    Dict.get (apply_input roomEx "p1"
        { dx := NumField.num 100, dy := NumField.num 0 }).statePlayers "p1"
      = some { x := 188, y := 300 } := by
  refine ⟨?_, rfl, ?_⟩
  · intro room pid m p q hp hx0 hx1 hy0 hy1 hq
    rw [apply_input_eq_of_get m hp, Dict.get_set_self] at hq
    cases Option.some.inj hq
    exact ⟨clampWorld_move_le hx0 hx1 (clampDelta_abs_le _),
           clampWorld_move_le hy0 hy1 (clampDelta_abs_le _)⟩
  · have hp : Dict.get roomEx.statePlayers "p1" = some { x := 180, y := 300 } := rfl
    rw [apply_input_eq_of_get _ hp, Dict.get_set_self]
    norm_num [extract_deltas, NumField.isMalformed, NumField.toVal, clampDelta,
      clampWorld, MAX_MOVE_PER_INPUT, WORLD_MAX]

/-- Witness for C1 at the concrete one-player room `roomEx`. -/
theorem C1_per_input_movement_cap_witness :
    |(188 : ℚ) - 180| ≤ MAX_MOVE_PER_INPUT ∧ |(300 : ℚ) - 300| ≤ MAX_MOVE_PER_INPUT :=
  C1_per_input_movement_cap.1 roomEx "p1" { dx := NumField.num 100, dy := NumField.num 0 }
    { x := 180, y := 300 } { x := 188, y := 300 } rfl (by decide) (by decide) (by decide)
    (by decide) C1_per_input_movement_cap.2.2

/-- C2: spawn states lie inside the world bounds, any sequence of
`apply_input` calls keeps every stored position inside [0, WORLD_MAX]
on both axes, and the world clamp is the identity on in-range values. -/
theorem C2_positions_bounded_clamp_idempotent :
    (∀ (s : ServerS) (rid : String) (a b : Conn),
      RoomInWorld (create_room_with_pair s rid a b).2) ∧
    (∀ (room : Room) (l : List (String × InputMsg)),
      RoomInWorld room → RoomInWorld (run_inputs room l)) ∧
    (∀ v : ℚ, 0 ≤ v → v ≤ WORLD_MAX → clampWorld v = v) := by
  refine ⟨?_, ?_, ?_⟩
  · intro s rid a b e he
    have hsp : (create_room_with_pair s rid a b).2.statePlayers
        = [("p1", { x := 180, y := 300 }), ("p2", { x := 620, y := 300 })] := rfl
    rw [hsp] at he
    simp only [List.mem_cons, List.not_mem_nil, or_false] at he
    rcases he with rfl | rfl
    · exact ⟨by decide, by decide, by decide, by decide⟩
    · exact ⟨by decide, by decide, by decide, by decide⟩
  · exact fun room l h => run_inputs_in_world l room h
  · exact fun v h0 h1 => clampWorld_eq_of_mem h0 h1

/-- Witness for C2: one concrete oversized input against `roomEx`,
and clamp idempotence at 180. -/
theorem C2_positions_bounded_clamp_idempotent_witness :
    RoomInWorld (run_inputs roomEx [("p1", { dx := NumField.num 100, dy := NumField.num 0 })]) ∧
    clampWorld 180 = 180 :=
  ⟨C2_positions_bounded_clamp_idempotent.2.1 roomEx _ (by decide),
   C2_positions_bounded_clamp_idempotent.2.2 180 (by decide) (by decide)⟩

/-- C3: each snapshot-loop iteration bumps every registered room's tick
by exactly one, so after n iterations a room's tick is its original tick
plus n; the snapshot broadcast for that room at iteration n+1 carries
tick t0+n+1; and the ticks carried by broadcasts of distinct iterations
are strictly increasing. -/
theorem C3_snapshot_ticks_strictly_increasing :
    ∀ (s : ServerS) (rid : String) (r : Room), Dict.get s.rooms rid = some r →
      (∀ n : ℕ, Dict.get (run_snapshots s n).rooms rid
          = some { r with tick := r.tick + n }) ∧
      (∀ (n : ℕ) (out : Conn × Msg),
        out ∈ (snapshot_room { r with tick := r.tick + n }).2 →
        out.2 = Msg.snapshot r.room_id (r.tick + n + 1) r.statePlayers) ∧
      (∀ m n : ℕ, m < n → r.tick + m + 1 < r.tick + n + 1) := by
  intro s rid r h
  refine ⟨?_, ?_, ?_⟩
  · intro n
    rw [get_run_snapshots, h]
    rfl
  · intro n out hout
    exact snapshot_room_msg _ _ hout
  · intro m n hmn
    omega

/-- Witness for C3 at the concrete matched server `sPair`. -/
theorem C3_snapshot_ticks_strictly_increasing_witness :
    Dict.get (run_snapshots sPair 3).rooms "rB"
      = some { roomPair with tick := roomPair.tick + 3 } :=
  (C3_snapshot_ticks_strictly_increasing sPair "rB" roomPair rfl).1 3

/-- C10: `apply_input` leaves the room's identity mapping, tick and id
unchanged, does not touch any other player's state, preserves the
targeted player's hp and mana, and every snapshot broadcast carries the
full player-state mapping (hp and mana included). -/
theorem C10_apply_input_frame :
    (∀ (room : Room) (pid : String) (m : InputMsg),
      (apply_input room pid m).players = room.players ∧
      (apply_input room pid m).tick = room.tick ∧
      (apply_input room pid m).room_id = room.room_id ∧
      (∀ q : String, q ≠ pid →
        Dict.get (apply_input room pid m).statePlayers q
          = Dict.get room.statePlayers q) ∧
      (∀ p p2 : PlayerState, Dict.get room.statePlayers pid = some p →
        Dict.get (apply_input room pid m).statePlayers pid = some p2 →
        p2.hp = p.hp ∧ p2.mana = p.mana)) ∧
    (∀ (r : Room) (out : Conn × Msg), out ∈ (snapshot_room r).2 →
      out.2 = Msg.snapshot r.room_id (r.tick + 1) r.statePlayers) := by
  constructor
  · intro room pid m
    refine ⟨?_, ?_, ?_, ?_, ?_⟩
    · cases hg : Dict.get room.statePlayers pid with
      | none => rw [apply_input_eq_of_none m hg]
      | some p => rw [apply_input_eq_of_get m hg]
    · cases hg : Dict.get room.statePlayers pid with
      | none => rw [apply_input_eq_of_none m hg]
      | some p => rw [apply_input_eq_of_get m hg]
    · cases hg : Dict.get room.statePlayers pid with
      | none => rw [apply_input_eq_of_none m hg]
      | some p => rw [apply_input_eq_of_get m hg]
    · intro q hne
      cases hg : Dict.get room.statePlayers pid with
      | none => rw [apply_input_eq_of_none m hg]
      | some p =>
        rw [apply_input_eq_of_get m hg]
        exact Dict.get_set_ne _ hne
    · intro p p2 hp hq
      rw [apply_input_eq_of_get m hp, Dict.get_set_self] at hq
      cases Option.some.inj hq
      exact ⟨rfl, rfl⟩
  · intro r out hout
    exact snapshot_room_msg _ _ hout

/-- Witness for C10: a capped input aimed at "p1" leaves "p2"'s state
entry untouched. -/
theorem C10_apply_input_frame_witness :
    Dict.get (apply_input roomPair "p1"
        { dx := NumField.num 100, dy := NumField.num 0 }).statePlayers "p2"
      = Dict.get roomPair.statePlayers "p2" :=
  (C10_apply_input_frame.1 roomPair "p1"
    { dx := NumField.num 100, dy := NumField.num 0 }).2.2.2.1 "p2" (by decide)

/-- C7: in every server state reachable through the three mutating
operations (arrival with matchmaking, input handling, disconnect) every
registered room's player-identity mapping and player-state mapping have
exactly the same key sets; moreover a single apply_input call preserves
the property for any room. -/
theorem C7_players_and_state_keys_match :
    (∀ s : ServerS, Reachable s → RoomsKeysMatch s) ∧
    (∀ (room : Room) (pid : String) (m : InputMsg),
      KeysMatch room → KeysMatch (apply_input room pid m)) :=
  ⟨reachable_roomsKeysMatch, keysMatch_apply_input⟩

/-- Witness for C7 at the reachable two-arrival server `sPair`. -/
theorem C7_players_and_state_keys_match_witness : RoomsKeysMatch sPair :=
  C7_players_and_state_keys_match.1 sPair
    (Relation.ReflTransGen.tail
      (Relation.ReflTransGen.tail Relation.ReflTransGen.refl (Step.arrive init 0 "rA"))
      (Step.arrive (arrival init 0 "rA") 1 "rB"))

/-- Characterization of `remove_client` for a socket that is a member
of a registered room. -/
theorem remove_client_eq_member {s : ServerS} {c : Conn} {conn : PlayerConn} {room : Room}
    (hpi : Dict.get s.player_index c = some conn)
    (hr : Dict.get s.rooms conn.room_id = some room) :
    remove_client s c =
      (if Dict.pop room.players conn.player_id = [] then
        ({ rooms := Dict.pop s.rooms room.room_id,
           queue := s.queue.filter (fun x => decide (x ≠ c)),
           player_index := Dict.pop s.player_index c },
         broadcast
           { room with
               players := Dict.pop room.players conn.player_id
               statePlayers := Dict.pop room.statePlayers conn.player_id }
           (Msg.player_left conn.player_id room.room_id))
      else
        ({ rooms := Dict.set s.rooms room.room_id
             { room with
                 players := Dict.pop room.players conn.player_id
                 statePlayers := Dict.pop room.statePlayers conn.player_id },
           queue := s.queue.filter (fun x => decide (x ≠ c)),
           player_index := Dict.pop s.player_index c },
         broadcast
           { room with
               players := Dict.pop room.players conn.player_id
               statePlayers := Dict.pop room.statePlayers conn.player_id }
           (Msg.player_left conn.player_id room.room_id))) := by
  unfold remove_client
  rw [hpi]
  dsimp only
  rw [hr]

/-- C5: when one member of a two-member room disconnects, the room stays
in the registry with exactly one member and the remaining member is sent
a player_left message with the departed player's id and the room id;
when the last member disconnects the room is removed entirely. -/
theorem C5_disconnect_lifecycle :
    ∀ (s : ServerS) (c : Conn) (conn : PlayerConn) (room : Room),
      Dict.get s.player_index c = some conn →
      Dict.get s.rooms conn.room_id = some room →
      room.room_id = conn.room_id →
      (Dict.keys room.players).Nodup →
      conn.player_id ∈ Dict.keys room.players →
      (room.players.length = 2 →
        Dict.get (remove_client s c).1.rooms conn.room_id
          = some { room with
              players := Dict.pop room.players conn.player_id
              statePlayers := Dict.pop room.statePlayers conn.player_id } ∧
        (Dict.pop room.players conn.player_id).length = 1 ∧
        (∀ e ∈ room.players, e.1 ≠ conn.player_id →
          (e.2.ws, Msg.player_left conn.player_id room.room_id)
            ∈ (remove_client s c).2)) ∧
      (Dict.keys room.players = [conn.player_id] →
        Dict.get (remove_client s c).1.rooms conn.room_id = none ∧
        (remove_client s c).2 = []) := by
  intro s c conn room hpi hr hid hnd hmem
  have hlen := Dict.length_pop_of_mem hnd hmem
  rw [remove_client_eq_member hpi hr]
  constructor
  · intro h2
    have hne : Dict.pop room.players conn.player_id ≠ [] := by
      intro hE
      rw [hE] at hlen
      simp only [List.length_nil] at hlen
      omega
    rw [if_neg hne]
    refine ⟨?_, ?_, ?_⟩
    · dsimp only
      rw [← hid]
      exact Dict.get_set_self _ _ _
    · omega
    · intro e he hne2
      exact List.mem_map_of_mem _ (Dict.mem_pop_of_ne he hne2)
  · intro h1
    have hpop : Dict.pop room.players conn.player_id = [] :=
      Dict.pop_of_keys_eq_singleton h1
    rw [if_pos hpop]
    constructor
    · dsimp only
      rw [← hid]
      exact Dict.get_pop_self _ _
    · dsimp only
      simp [broadcast, hpop]

/-- Witness for C5: connection 0 ("p2") of the matched pair leaves. -/
theorem C5_disconnect_lifecycle_witness :
    Dict.get (remove_client sPair 0).1.rooms "rB"
      = some { roomPair with
          players := Dict.pop roomPair.players "p2"
          statePlayers := Dict.pop roomPair.statePlayers "p2" } :=
  ((C5_disconnect_lifecycle sPair 0 { ws := 0, player_id := "p2", room_id := "rB" }
      roomPair rfl rfl rfl (by decide) (by decide)).1 rfl).1

/-- C4 counterexample: with four queued connections a single
`try_matchmaking` call pairs only once (lines 96-101 contain no loop):
two connections remain queued — not at most one — and one room is
created, not 4/2 = 2. -/
theorem C4_counterexample :
    s4.queue.length = 4 ∧
    (try_matchmaking "r" s4).1.queue.length = 2 ∧
    ¬ (try_matchmaking "r" s4).1.queue.length ≤ 1 ∧
    (try_matchmaking "r" s4).1.rooms.length = 1 ∧
    (1 : ℕ) ≠ 4 / 2 := by decide

/-- C4 amended: a call finding at least two queued connections performs
exactly one pairing — it removes the two popped connections, creates one
room holding them in slots "p1"/"p2" (distinct connections when the
queue held no duplicates) and leaves the rest queued; a call finding
fewer than two is a no-op; and under the per-arrival invocation pattern,
n distinct arrivals into the empty server leave n % 2 (hence at most
one) queued connections and create n / 2 rooms in total. -/
theorem C4_one_pairing_per_call :
    (∀ (s : ServerS) (rid : String) (a b : Conn) (rest : List Conn),
      s.queue = a :: b :: rest →
      (try_matchmaking rid s).1.queue = rest ∧
      Dict.get (try_matchmaking rid s).1.rooms rid
        = some (create_room_with_pair { s with queue := rest } rid a b).2 ∧
      Dict.keys (create_room_with_pair { s with queue := rest } rid a b).2.players
        = ["p1", "p2"] ∧
      (s.queue.Nodup → a ≠ b)) ∧
    (∀ (s : ServerS) (rid : String), s.queue.length < 2 →
      (try_matchmaking rid s).1 = s) ∧
    (∀ l : List (Conn × String),
      (l.map Prod.fst).Nodup → (l.map Prod.snd).Nodup →
      (run_arrivals init l).queue.length = l.length % 2 ∧
      (run_arrivals init l).rooms.length = l.length / 2) := by
  refine ⟨?_, ?_, ?_⟩
  · intro s rid a b rest hq
    obtain ⟨R, q, pi⟩ := s
    dsimp only at hq
    subst hq
    refine ⟨rfl, Dict.get_set_self _ _ _, rfl, ?_⟩
    intro hnd hEq
    exact (List.nodup_cons.mp hnd).1 (hEq ▸ List.mem_cons_self b rest)
  · intro s rid hl
    obtain ⟨R, q, pi⟩ := s
    rcases q with _ | ⟨a, _ | ⟨b, rest⟩⟩
    · rfl
    · rfl
    · exfalso
      simp only [List.length_cons] at hl
      omega
  · intro l hc hr
    have h := run_arrivals_counts l init hc hr (by simp [init]) (by simp [init])
      (by simp [init, Dict.keys])
    simpa [init] using h

/-- Witness for C4: four distinct arrivals drain into two rooms. -/
theorem C4_one_pairing_per_call_witness :
    (run_arrivals init [(0, "rA"), (1, "rB"), (2, "rC"), (3, "rD")]).queue.length
        = [((0 : Conn), "rA"), (1, "rB"), (2, "rC"), (3, "rD")].length % 2 ∧
    (run_arrivals init [(0, "rA"), (1, "rB"), (2, "rC"), (3, "rD")]).rooms.length
        = [((0 : Conn), "rA"), (1, "rB"), (2, "rC"), (3, "rD")].length / 2 :=
  C4_one_pairing_per_call.2.2 [(0, "rA"), (1, "rB"), (2, "rC"), (3, "rD")]
    (by decide) (by decide)

/-- C6 counterexample: the matchmaking queue is a set whose pop order is
arbitrary; after connection 0 and then connection 1 arrive at the empty
server the pop order may be [1, 0] (a permutation of the arrival order),
in which case the SECOND arrival is assigned slot "p1" and the
first-arrived connection 0 gets "p2" — contrary to the claim. -/
theorem C6_counterexample :
    ([1, 0] : List Conn).Perm [0, 1] ∧
    sPair.queue = [] ∧
    Dict.get sPair.rooms "rB" = some roomPair ∧
    Dict.get roomPair.players "p1"
      = some { ws := 1, player_id := "p1", room_id := "rB" } ∧
    Dict.get roomPair.players "p2"
      = some { ws := 0, player_id := "p2", room_id := "rB" } ∧
    (1 : Conn) ≠ 0 := by decide

/-- C6 amended: whichever connection the set pops first becomes "p1"
(spawn (180, 300)) and the second-popped becomes "p2" (spawn (620,
300)); each receives a welcome carrying its assigned player id and the
shared room id, and both then receive a match_found broadcast listing
["p1", "p2"] — but which of the two arrivals is popped first is
arbitrary (set semantics), not determined by arrival order. -/
theorem C6_match_assignment_by_pop_order :
    ∀ (s : ServerS) (rid : String) (u v : Conn), s.queue = [u, v] →
      (try_matchmaking rid s).2 =
        [(u, Msg.welcome "p1" rid), (v, Msg.welcome "p2" rid),
         (u, Msg.match_found rid ["p1", "p2"]),
         (v, Msg.match_found rid ["p1", "p2"])] ∧
      Dict.get (create_room_with_pair { s with queue := [] } rid u v).2.players "p1"
        = some { ws := u, player_id := "p1", room_id := rid } ∧
      Dict.get (create_room_with_pair { s with queue := [] } rid u v).2.players "p2"
        = some { ws := v, player_id := "p2", room_id := rid } ∧
      Dict.get (create_room_with_pair { s with queue := [] } rid u v).2.statePlayers "p1"
        = some { x := 180, y := 300 } ∧
      Dict.get (create_room_with_pair { s with queue := [] } rid u v).2.statePlayers "p2"
        = some { x := 620, y := 300 } ∧
      Dict.get (try_matchmaking rid s).1.rooms rid
        = some (create_room_with_pair { s with queue := [] } rid u v).2 := by
  intro s rid u v hq
  obtain ⟨R, q, pi⟩ := s
  dsimp only at hq
  subst hq
  exact ⟨rfl, rfl, rfl, rfl, rfl, Dict.get_set_self R rid _⟩

/-- Witness for C6 amended, at the pop order [1, 0]. -/
theorem C6_match_assignment_by_pop_order_witness :
    (try_matchmaking "rB" { queue := [1, 0] } : ServerS × List (Conn × Msg)).2 =
      [(1, Msg.welcome "p1" "rB"), (0, Msg.welcome "p2" "rB"),
       (1, Msg.match_found "rB" ["p1", "p2"]), (0, Msg.match_found "rB" ["p1", "p2"])] :=
  (C6_match_assignment_by_pop_order { queue := [1, 0] } "rB" 1 0 rfl).1

/-- C8 counterexample: a message whose dx field is missing but whose dy
field is the number 5 satisfies the claim's antecedent (dx is missing),
yet the in-bounds player at (180, 300) moves to (180, 305): only a
coercion failure zeroes both axes; a missing field merely defaults its
own axis to 0. -/
theorem C8_counterexample :
    ({ dx := NumField.missing, dy := NumField.num 5 } : InputMsg).dx
        = NumField.missing ∧
    Dict.get roomEx.statePlayers "p1" = some { x := 180, y := 300 } ∧
    Dict.get (apply_input roomEx "p1"
        { dx := NumField.missing, dy := NumField.num 5 }).statePlayers "p1"
      = some { x := 180, y := 305 } ∧
    ({ x := 180, y := 305 } : PlayerState) ≠ { x := 180, y := 300 } := by
  refine ⟨rfl, rfl, ?_, by decide⟩
  have hp : Dict.get roomEx.statePlayers "p1" = some { x := 180, y := 300 } := rfl
  rw [apply_input_eq_of_get _ hp, Dict.get_set_self]
  norm_num [extract_deltas, NumField.isMalformed, NumField.toVal, clampDelta,
    clampWorld, MAX_MOVE_PER_INPUT, WORLD_MAX]

/-- C8 amended: a coercion failure on either field zeroes both deltas;
a message with both fields missing also yields (0, 0); a missing field
alone defaults only its own axis to 0 while the other numeric axis still
applies; and with a (0, 0) delta an in-bounds player keeps exactly the
same state. -/
theorem C8_zero_delta_on_failure :
    (∀ m : InputMsg, m.dx.isMalformed = true ∨ m.dy.isMalformed = true →
      extract_deltas m = (0, 0)) ∧
    extract_deltas { dx := NumField.missing, dy := NumField.missing } = (0, 0) ∧
    (∀ m : InputMsg, m.dx = NumField.missing → m.dy.isMalformed = false →
      extract_deltas m = (0, m.dy.toVal)) ∧
    (∀ (room : Room) (pid : String) (m : InputMsg) (p : PlayerState),
      extract_deltas m = (0, 0) →
      Dict.get room.statePlayers pid = some p →
      0 ≤ p.x → p.x ≤ WORLD_MAX → 0 ≤ p.y → p.y ≤ WORLD_MAX →
      Dict.get (apply_input room pid m).statePlayers pid = some p) := by
  refine ⟨?_, rfl, ?_, ?_⟩
  · intro m hm
    rw [extract_deltas]
    rcases hm with hm | hm <;> simp [hm]
  · intro m hdx hdy
    rw [extract_deltas, hdx]
    have hcond : (NumField.isMalformed NumField.missing || NumField.isMalformed m.dy)
        = false := by
      rw [hdy]
      rfl
    rw [hcond]
    rfl
  · intro room pid m p hm hp hx0 hx1 hy0 hy1
    have h1 : clampDelta (extract_deltas m).1 = 0 := by
      rw [hm]
      norm_num [clampDelta, MAX_MOVE_PER_INPUT]
    have h2 : clampDelta (extract_deltas m).2 = 0 := by
      rw [hm]
      norm_num [clampDelta, MAX_MOVE_PER_INPUT]
    rw [apply_input_eq_of_get m hp, Dict.get_set_self, h1, h2, add_zero, add_zero,
      clampWorld_eq_of_mem hx0 hx1, clampWorld_eq_of_mem hy0 hy1]

/-- Witness for C8 amended: a malformed dx with numeric dy leaves the
player exactly in place. -/
theorem C8_zero_delta_on_failure_witness :
    extract_deltas { dx := NumField.malformed, dy := NumField.num 3 } = (0, 0) ∧
    Dict.get (apply_input roomEx "p1"
        { dx := NumField.malformed, dy := NumField.num 3 }).statePlayers "p1"
      = some { x := 180, y := 300 } :=
  ⟨C8_zero_delta_on_failure.1 _ (Or.inl rfl),
   C8_zero_delta_on_failure.2.2.2 roomEx "p1" _ { x := 180, y := 300 } (by decide) rfl
     (by decide) (by decide) (by decide) (by decide)⟩

/-- C9 counterexample: with the snapshot rate configured to 1/2 Hz the
source computes a period of 1/max(1, 1/2) = 1 second, not
1/(1/2) = 2 seconds. -/
theorem C9_counterexample :
    tick_dt (1 / 2) = 1 ∧ (1 : ℚ) / (1 / 2) = 2 ∧ (1 : ℚ) ≠ 2 := by
  norm_num [tick_dt]

/-- C9 amended: the broadcaster's period is 1/max(1, rate); it equals
1/rate for every rate ≥ 1; and at the default rate of 20 Hz it is
1/20 = 0.05 seconds. -/
theorem C9_snapshot_period :
    (∀ rate : ℚ, tick_dt rate = 1 / max 1 rate) ∧
    (∀ rate : ℚ, 1 ≤ rate → tick_dt rate = 1 / rate) ∧
    SNAPSHOT_RATE = 20 ∧
    tick_dt SNAPSHOT_RATE = 1 / 20 ∧
    (1 : ℚ) / 20 = 5 / 100 := by
  refine ⟨fun rate => rfl, ?_, rfl, ?_, by norm_num⟩
  · intro rate h
    rw [tick_dt, max_eq_right h]
  · norm_num [tick_dt, SNAPSHOT_RATE]

/-- Witness for C9 amended at the default rate. -/
theorem C9_snapshot_period_witness : tick_dt 20 = 1 / 20 :=
  C9_snapshot_period.2.1 20 (by decide)

end ServerState
